import Mathlib

/-!
# Shallow embedding of `trnnr.py` / `trnns.py` (Tor relay nearest-neighbour search)

The tool fetches a mapping from relay fingerprint to relay descriptor, turns
each descriptor into a canonical string (`to_str`), computes the Levenshtein
distance between the reference relay's canonical string and every fetched
descriptor's canonical string, sorts ascending by distance, and prints the
top `num_results` rows.

Python strings are modelled as `String` (with `List Char` for the
character-level loops), Python ints as `Nat` (all numeric descriptor fields
are non-negative) except the `--top` argument, which is modelled as `Int`
since `argparse` accepts negative values.  The Python `dict` is modelled as
an association list in insertion order, which is exactly the iteration order
of a Python dict.  The external `Levenshtein.distance` library call is
modelled by Mathlib's `levenshtein` with the unit cost structure, which is
the textbook Levenshtein distance computed by that library.
-/

/-- A relay server descriptor (the fields read by `trnnr.py` / `trnns.py`).
`dir_port` is optional (`None` in Python is `none` here); all other numeric
fields are non-negative integers.  `tor_version`, `exit_policy` and
`published` are objects in the source, used only via `str()` (the `%s`
format), so they are modelled by their string rendering. -/
structure Descriptor where
  fingerprint : String
  nickname : String
  address : String
  or_port : Nat
  dir_port : Option Nat
  tor_version : String
  exit_policy : String
  average_bandwidth : Nat
  burst_bandwidth : Nat
  observed_bandwidth : Nat
  operating_system : String
  published : String
  uptime : Nat
  contact : String
deriving DecidableEq, Inhabited

/-- `Levenshtein.distance(a, b)`: the unit-cost Levenshtein edit distance
between two strings (external library call in the source). -/
def distance (s t : String) : Nat :=
  levenshtein Levenshtein.defaultCost s.data t.data

/-- Python dict assignment `m[k] = v`: overwrite the value in place when the
key is present, otherwise append the binding at the end. -/
def dictSet {β : Type} (m : List (String × β)) (k : String) (v : β) :
    List (String × β) :=
  if m.any (fun p => p.1 = k) then
    m.map (fun p => if p.1 = k then (k, v) else p)
  else
    m ++ [(k, v)]

/-- Python dict subscript `m[k]`.  In the program the key is always present
(`KeyError` is unreachable), so the missing case returns a default value. -/
def lookupD (m : List (String × Descriptor)) (k : String) : Descriptor :=
  (List.lookup k m).getD default

/-- One step of Python's stable ascending insertion: place `p` before the
first element whose distance is strictly greater, after all elements whose
distance is less than or equal. -/
def insertByDist (p : String × Nat) : List (String × Nat) → List (String × Nat)
  | [] => [p]
  | q :: rest => if p.2 < q.2 then p :: q :: rest else q :: insertByDist p rest

/-- `sorted(dists.items(), key=operator.itemgetter(1))`: Python's `sorted` is
a stable sort ascending by the projected key, here the distance.  A stable
ascending sort is computed by inserting each item, in iteration order, after
all previously inserted items of smaller or equal distance. -/
def pySorted (l : List (String × Nat)) : List (String × Nat) :=
  l.foldl (fun acc p => insertByDist p acc) []

/-- The loop `for i, elem in enumerate(sorted_dists): if i == num_results:
break; ...`: emit elements with a running index, stopping as soon as the
index equals `num_results`. -/
def displayLoop : List (String × Nat) → Int → Int → List (String × Nat)
  | [], _, _ => []
  | e :: rest, i, n => if i = n then [] else e :: displayLoop rest (i + 1) n

/-- The loop `for fingerprint, desc in descs.items(): dists[desc.fingerprint]
= Levenshtein.distance(reference_str, to_str(desc))`, building the distance
table keyed by the descriptor's fingerprint.  `canon` is the `to_str` of the
variant at hand. -/
def build_dists (canon : Descriptor → String)
    (descs : List (String × Descriptor)) (reference_str : String) :
    List (String × Nat) :=
  descs.foldl
    (fun dists p => dictSet dists p.2.fingerprint (distance reference_str (canon p.2)))
    []

/-- `"%3d" % n`: decimal rendering of `n`, left-padded with spaces to a
minimum width of three characters. -/
def format3d (n : Nat) : String :=
  String.mk (List.replicate (3 - (Nat.repr n).length) ' ' ++ (Nat.repr n).data)

/-- `itertools.zip_longest`: zip two lists, padding the shorter one with
`None`. -/
def zipLongest {α β : Type} : List α → List β → List (Option α × Option β)
  | [], ys => ys.map (fun y => (none, some y))
  | x :: xs, [] => (some x, none) :: zipLongest xs []
  | x :: xs, y :: ys => (some x, some y) :: zipLongest xs ys

namespace Trnnr

/-- `dirport_to_int` from `trnnr.py`: `None` becomes `0`. -/
def dirport_to_int : Option Nat → Nat
  | none => 0
  | some p => p

/-- `to_str` from `trnnr.py`: the canonical string
`"%s%s%d%d%s%s%d%d%d%s%s%d%s"` over nickname, address, or-port, dir-port
(0 when absent), version, exit policy, average / burst / observed bandwidth,
operating system, published timestamp, uptime and contact. -/
def to_str (desc : Descriptor) : String :=
  desc.nickname ++ desc.address ++ Nat.repr desc.or_port ++
    Nat.repr (dirport_to_int desc.dir_port) ++ desc.tor_version ++
    desc.exit_policy ++ Nat.repr desc.average_bandwidth ++
    Nat.repr desc.burst_bandwidth ++ Nat.repr desc.observed_bandwidth ++
    desc.operating_system ++ desc.published ++ Nat.repr desc.uptime ++
    desc.contact

/-- `desc_to_str` from `trnnr.py`: the comma-separated display string
`"%s,%s,%s,%d,%d,%s,%s,%d,%d,%d,%d,%s"` over the truncated fingerprint and
eleven further fields. -/
def desc_to_str (desc : Descriptor) : String :=
  desc.fingerprint.take 8 ++ "," ++ desc.nickname ++ "," ++ desc.address ++
    "," ++ Nat.repr desc.or_port ++ "," ++
    Nat.repr (dirport_to_int desc.dir_port) ++ "," ++ desc.tor_version ++
    "," ++ desc.operating_system ++ "," ++ Nat.repr desc.average_bandwidth ++
    "," ++ Nat.repr desc.burst_bandwidth ++ "," ++
    Nat.repr desc.observed_bandwidth ++ "," ++ Nat.repr desc.uptime ++ "," ++
    desc.contact

/-- `termcolor.colored(s, "red")`: wrap in ANSI escape sequences. -/
def colored (s : List Char) : List Char :=
  "\x1b[31m".data ++ s ++ "\x1b[0m".data

/-- `char if char is not None else " "`. -/
def char_or_space : Option Char → List Char
  | some c => [c]
  | none => [' ']

/-- The body of `format_desc`'s inner loop: highlight the character when it
matches the reference character and colour is on, otherwise emit the
character itself, or a space when the candidate string is exhausted.
(`zip_longest` never yields two `none`s, so the highlighted character is
always present.) -/
def format_char (use_colour : Bool) (p : Option Char × Option Char) :
    List Char :=
  if p.1 = p.2 ∧ use_colour = true then colored (char_or_space p.1)
  else char_or_space p.1

/-- `format_desc` from `trnnr.py`: split the display strings of the
candidate and the reference on commas, process each zipped pair of fields
character by character with `zip_longest`, append a comma after every field,
and split the accumulated string on commas again. -/
def format_desc (desc ref_desc : Descriptor) (use_colour : Bool) :
    List String :=
  let ds := (desc_to_str desc).data.splitOn ','
  let rs := (desc_to_str ref_desc).data.splitOn ','
  let final_string : List Char :=
    ((ds.zip rs).map
      (fun p => ((zipLongest p.1 p.2).map (format_char use_colour)).flatten ++ [','])).flatten
  (final_string.splitOn ',').map String.mk

/-- The header row of `trnnr.py`'s output table. -/
def header : List String :=
  ["distance", "fingerprint", "nickname", "addr", "orport", "dirport",
   "version", "os", "avgbw", "burstbw", "obsbw", "uptime", "contact"]

/-- One result row: `["%3d" % distance] + format_desc(descs[fingerprint],
descs[relay_fpr], use_colour)`. -/
def result_row (descs : List (String × Descriptor)) (relay_fpr : String)
    (use_colour : Bool) (p : String × Nat) : List String :=
  format3d p.2 :: format_desc (lookupD descs p.1) (lookupD descs relay_fpr) use_colour

/-- `process_descriptors` from `trnnr.py`, with the fetched mapping passed
in explicitly (the fetch itself is network I/O and out of scope).  Returns
the exit code together with the list of table rows handed to `tabulate`.
When the reference fingerprint is absent the function returns exit code 1
before any ranking, having produced no rows. -/
def process_descriptors (descs : List (String × Descriptor))
    (relay_fpr : String) (num_results : Int) (use_colour : Bool) :
    Nat × List (List String) :=
  match List.lookup relay_fpr descs with
  | none => (1, [])
  | some reference =>
    let reference_str := to_str reference
    let dists := build_dists to_str descs reference_str
    let sorted_dists := pySorted dists
    let lines := header ::
      (displayLoop sorted_dists 0 num_results).map
        (result_row descs relay_fpr use_colour)
    (0, lines)

end Trnnr

namespace Trnns

/-- `to_str` from `trnns.py`: identical format string to `trnnr.py`'s, with
the `None` dir-port check inlined instead of calling `dirport_to_int`. -/
def to_str (desc : Descriptor) : String :=
  let dir_port := match desc.dir_port with
    | none => 0
    | some p => p
  desc.nickname ++ desc.address ++ Nat.repr desc.or_port ++
    Nat.repr dir_port ++ desc.tor_version ++ desc.exit_policy ++
    Nat.repr desc.average_bandwidth ++ Nat.repr desc.burst_bandwidth ++
    Nat.repr desc.observed_bandwidth ++ desc.operating_system ++
    desc.published ++ Nat.repr desc.uptime ++ desc.contact

/-- `print_desc` from `trnns.py`: the line
`"%s,%s,%s,%d,%s,%s,%d,%s"` over fingerprint, nickname, address, or-port,
version, operating system, observed bandwidth and contact. -/
def print_desc (desc : Descriptor) : String :=
  desc.fingerprint ++ "," ++ desc.nickname ++ "," ++ desc.address ++ "," ++
    Nat.repr desc.or_port ++ "," ++ desc.tor_version ++ "," ++
    desc.operating_system ++ "," ++ Nat.repr desc.observed_bandwidth ++
    "," ++ desc.contact

/-- The header line printed by `trnns.py`. -/
def header : String :=
  "distance,fingerprint,nickname,addr,orport,version,os,bw,contact"

/-- One printed result line: `"%3d," % distance` (printed without a newline)
immediately followed by `print_desc(descs[fingerprint])`. -/
def result_line (descs : List (String × Descriptor)) (p : String × Nat) :
    String :=
  format3d p.2 ++ "," ++ print_desc (lookupD descs p.1)

/-- `process_descriptors` from `trnns.py`, with the fetched mapping passed
in explicitly.  Returns the exit code together with the printed lines.
When the reference fingerprint is absent the function returns exit code 1
before any ranking, having printed nothing. -/
def process_descriptors (descs : List (String × Descriptor))
    (relay_fpr : String) (num_results : Int) : Nat × List String :=
  match List.lookup relay_fpr descs with
  | none => (1, [])
  | some reference =>
    let reference_str := to_str reference
    let dists := build_dists to_str descs reference_str
    let sorted_dists := pySorted dists
    let lines := header ::
      (displayLoop sorted_dists 0 num_results).map (result_line descs)
    (0, lines)

end Trnns

/-! ## The Levenshtein distance is a metric

Support lemmas about the unit-cost Levenshtein distance over character
lists, proved from the recurrence equations of Mathlib's `levenshtein`. -/

/-- The character-list form of `distance`. -/
def lev (a b : List Char) : Nat :=
  levenshtein Levenshtein.defaultCost a b

theorem distance_eq_lev (s t : String) : distance s t = lev s.data t.data :=
  rfl

/-- The substitution cost of the unit cost structure. -/
def subCost (x y : Char) : Nat :=
  if x = y then 0 else 1

theorem lev_nil (b : List Char) : lev [] b = b.length := by
  induction b with
  | nil => rfl
  | cons y ys ih =>
    simp only [lev, levenshtein_nil_cons, Levenshtein.defaultCost_insert] at ih ⊢
    simp [ih]; omega

theorem lev_nil_right (a : List Char) : lev a [] = a.length := by
  induction a with
  | nil => rfl
  | cons x xs ih =>
    simp only [lev, levenshtein_cons_nil, Levenshtein.defaultCost_delete] at ih ⊢
    simp [ih]; omega

theorem lev_cons_cons (x : Char) (xs : List Char) (y : Char) (ys : List Char) :
    lev (x :: xs) (y :: ys) =
      min (1 + lev xs (y :: ys))
        (min (1 + lev (x :: xs) ys) (subCost x y + lev xs ys)) := by
  simp [lev, levenshtein_cons_cons, subCost]

theorem lev_le_delete (x : Char) (xs b : List Char) :
    lev (x :: xs) b ≤ 1 + lev xs b := by
  cases b with
  | nil => rw [lev_nil_right, lev_nil_right]; simp [Nat.add_comm]
  | cons y ys => rw [lev_cons_cons]; omega

theorem lev_le_insert (a : List Char) (y : Char) (ys : List Char) :
    lev a (y :: ys) ≤ 1 + lev a ys := by
  cases a with
  | nil => rw [lev_nil, lev_nil]; simp [Nat.add_comm]
  | cons x xs => rw [lev_cons_cons]; omega

theorem lev_le_subst (x : Char) (xs : List Char) (y : Char) (ys : List Char) :
    lev (x :: xs) (y :: ys) ≤ subCost x y + lev xs ys := by
  rw [lev_cons_cons]; omega

theorem subCost_self (x : Char) : subCost x x = 0 := by
  simp [subCost]

theorem subCost_comm (x y : Char) : subCost x y = subCost y x := by
  simp [subCost, eq_comm]

theorem subCost_triangle (x y z : Char) :
    subCost x z ≤ subCost x y + subCost y z := by
  by_cases h1 : x = y
  · subst h1; simp [subCost]
  · by_cases h2 : y = z
    · subst h2; simp [subCost, h1]
    · simp only [subCost, h1, h2, if_false]
      split <;> omega

theorem lev_self (a : List Char) : lev a a = 0 := by
  induction a with
  | nil => rfl
  | cons x xs ih =>
    rw [lev_cons_cons]
    have h := subCost_self x
    omega

theorem lev_comm (a b : List Char) : lev a b = lev b a := by
  match a, b with
  | [], b => rw [lev_nil, lev_nil_right]
  | x :: xs, [] => rw [lev_nil, lev_nil_right]
  | x :: xs, y :: ys =>
    rw [lev_cons_cons, lev_cons_cons]
    rw [lev_comm xs (y :: ys), lev_comm (x :: xs) ys, lev_comm xs ys,
      subCost_comm]
    omega
termination_by a.length + b.length

theorem length_le_lev (b c : List Char) : c.length ≤ b.length + lev b c := by
  match b, c with
  | [], c => rw [lev_nil]; omega
  | y :: bs, [] => simp
  | y :: bs, z :: cs =>
    rw [lev_cons_cons]
    have h1 := length_le_lev bs (z :: cs)
    have h2 := length_le_lev (y :: bs) cs
    have h3 := length_le_lev bs cs
    simp only [List.length_cons] at h1 h2 h3 ⊢
    omega
termination_by b.length + c.length

theorem lev_le_length (a c : List Char) : lev a c ≤ a.length + c.length := by
  induction a with
  | nil => rw [lev_nil]; omega
  | cons x xs ih =>
    have h := lev_le_delete x xs c
    simp only [List.length_cons]
    omega

theorem lev_triangle (a b c : List Char) : lev a c ≤ lev a b + lev b c := by
  match a, b, c with
  | a, [], c =>
    rw [lev_nil_right, lev_nil]
    have := lev_le_length a c
    omega
  | [], y :: ys, c =>
    rw [lev_nil, lev_nil]
    have := length_le_lev (y :: ys) c
    omega
  | x :: xs, y :: ys, [] =>
    rw [lev_nil_right, lev_nil_right]
    have h := length_le_lev (y :: ys) (x :: xs)
    rw [lev_comm (y :: ys) (x :: xs)] at h
    omega
  | x :: xs, y :: ys, z :: zs =>
    have hab := lev_cons_cons x xs y ys
    have hbc := lev_cons_cons y ys z zs
    have ih1 := lev_triangle xs (y :: ys) (z :: zs)
    have ih2 := lev_triangle (x :: xs) (y :: ys) zs
    have ih3 := lev_triangle (x :: xs) ys (z :: zs)
    have ih4 := lev_triangle (x :: xs) ys zs
    have ih5 := lev_triangle xs ys (z :: zs)
    have ih6 := lev_triangle xs ys zs
    have hd := lev_le_delete x xs (z :: zs)
    have hi := lev_le_insert (x :: xs) z zs
    have hs := lev_le_subst x xs z zs
    have hct := subCost_triangle x y z
    omega
termination_by a.length + b.length + c.length

/-! ## The stable sort: permutation and sortedness -/

theorem insertByDist_perm (p : String × Nat) (l : List (String × Nat)) :
    List.Perm (insertByDist p l) (p :: l) := by
  induction l with
  | nil => exact List.Perm.refl _
  | cons q rest ih =>
    rw [insertByDist]
    split
    · exact List.Perm.refl _
    · exact (List.Perm.cons q ih).trans (List.Perm.swap p q rest)

theorem insertByDist_sorted (p : String × Nat) (l : List (String × Nat))
    (h : List.Pairwise (fun a b => a.2 ≤ b.2) l) :
    List.Pairwise (fun a b => a.2 ≤ b.2) (insertByDist p l) := by
  induction l with
  | nil => simp [insertByDist]
  | cons q rest ih =>
    rcases List.pairwise_cons.mp h with ⟨hq, hrest⟩
    rw [insertByDist]
    split
    case isTrue hlt =>
      refine List.pairwise_cons.mpr ⟨?_, h⟩
      intro b hb
      rcases List.mem_cons.mp hb with rfl | hb
      · omega
      · have := hq b hb; omega
    case isFalse hge =>
      refine List.pairwise_cons.mpr ⟨?_, ih hrest⟩
      intro b hb
      have hb' : b ∈ p :: rest := (insertByDist_perm p rest).mem_iff.mp hb
      rcases List.mem_cons.mp hb' with rfl | hb''
      · omega
      · exact hq b hb''

theorem pySorted_go_perm (l : List (String × Nat)) :
    ∀ acc : List (String × Nat),
      List.Perm (l.foldl (fun acc p => insertByDist p acc) acc) (acc ++ l) := by
  induction l with
  | nil => intro acc; simp
  | cons p rest ih =>
    intro acc
    simp only [List.foldl_cons]
    refine (ih (insertByDist p acc)).trans ?_
    refine (List.Perm.append_right rest (insertByDist_perm p acc)).trans ?_
    exact List.perm_middle.symm

theorem pySorted_perm (l : List (String × Nat)) : List.Perm (pySorted l) l := by
  simpa using pySorted_go_perm l []

theorem pySorted_go_sorted (l : List (String × Nat)) :
    ∀ acc : List (String × Nat),
      List.Pairwise (fun a b => a.2 ≤ b.2) acc →
      List.Pairwise (fun a b => a.2 ≤ b.2)
        (l.foldl (fun acc p => insertByDist p acc) acc) := by
  induction l with
  | nil => intro acc h; simpa using h
  | cons p rest ih =>
    intro acc h
    simp only [List.foldl_cons]
    exact ih _ (insertByDist_sorted p acc h)

theorem pySorted_sorted (l : List (String × Nat)) :
    List.Pairwise (fun a b => a.2 ≤ b.2) (pySorted l) :=
  pySorted_go_sorted l [] (by simp)

/-! ## The display loop -/

theorem displayLoop_take (l : List (String × Nat)) :
    ∀ (i : Int) (k : Nat), displayLoop l i (i + k) = l.take k := by
  induction l with
  | nil => intro i k; simp [displayLoop]
  | cons e rest ih =>
    intro i k
    rw [displayLoop]
    by_cases hk : k = 0
    · subst hk; simp
    · rw [if_neg (by omega)]
      obtain ⟨j, rfl⟩ : ∃ j, k = j + 1 := ⟨k - 1, by omega⟩
      have harith : i + ((j : Int) + 1) = (i + 1) + j := by ring
      push_cast
      rw [harith, ih (i + 1) j]
      simp

theorem displayLoop_neg (l : List (String × Nat)) (n : Int) :
    ∀ i : Int, n < i → displayLoop l i n = l := by
  induction l with
  | nil => intro i _; rfl
  | cons e rest ih =>
    intro i h
    rw [displayLoop, if_neg (by omega), ih (i + 1) (by omega)]

theorem displayLoop_big (l : List (String × Nat)) (n : Int) :
    ∀ i : Int, i + l.length ≤ n → displayLoop l i n = l := by
  induction l with
  | nil => intro i _; rfl
  | cons e rest ih =>
    intro i h
    simp only [List.length_cons] at h
    rw [displayLoop, if_neg (by omega), ih (i + 1) (by push_cast at h ⊢; omega)]

/-! ## The distance table -/

theorem dictSet_fresh {β : Type} (m : List (String × β)) (k : String) (v : β)
    (h : ∀ p ∈ m, p.1 ≠ k) : dictSet m k v = m ++ [(k, v)] := by
  have hc : ¬ (m.any (fun p => p.1 = k) = true) := by
    simp only [List.any_eq_true, decide_eq_true_eq]
    rintro ⟨p, hp, hpk⟩
    exact h p hp hpk
  simp [dictSet, hc]

theorem build_dists_go (canon : Descriptor → String) (r : String) :
    ∀ (descs : List (String × Descriptor)) (acc : List (String × Nat)),
      List.Nodup (descs.map (fun p => p.2.fingerprint)) →
      (∀ p ∈ descs, ∀ q ∈ acc, q.1 ≠ p.2.fingerprint) →
      descs.foldl
          (fun dists p => dictSet dists p.2.fingerprint (distance r (canon p.2)))
          acc
        = acc ++ descs.map (fun p => (p.2.fingerprint, distance r (canon p.2)))
  | [], acc, _, _ => by simp
  | d :: rest, acc, hnd, hdisj => by
    have hnd' : List.Nodup (rest.map (fun p => p.2.fingerprint)) :=
      (List.nodup_cons.mp (by simpa using hnd)).2
    have hhead : d.2.fingerprint ∉ rest.map (fun p => p.2.fingerprint) :=
      (List.nodup_cons.mp (by simpa using hnd)).1
    simp only [List.foldl_cons, List.map_cons]
    rw [dictSet_fresh _ _ _ (fun q hq => hdisj d (by simp) q hq)]
    rw [build_dists_go canon r rest
      (acc ++ [(d.2.fingerprint, distance r (canon d.2))]) hnd' ?_]
    · simp
    · intro p hp q hq
      rcases List.mem_append.mp hq with hq | hq
      · exact hdisj p (List.mem_cons_of_mem d hp) q hq
      · have hq1 : q.1 = d.2.fingerprint := by
          simp only [List.mem_singleton] at hq
          rw [hq]
        rw [hq1]
        intro hco
        exact hhead (hco ▸ List.mem_map_of_mem (fun p => p.2.fingerprint) hp)

theorem build_dists_eq (canon : Descriptor → String)
    (descs : List (String × Descriptor)) (r : String)
    (h : List.Nodup (descs.map (fun p => p.2.fingerprint))) :
    build_dists canon descs r
      = descs.map (fun p => (p.2.fingerprint, distance r (canon p.2))) := by
  simpa [build_dists] using build_dists_go canon r descs [] h (by simp)

/-! ## Scenario data

Three descriptors realising the spec's scenario: the canonical strings of
`descA`, `descB`, `descC` are at Levenshtein distance 0, 3 and 1 from the
reference `descA`' s canonical string. -/

/-- Scenario reference descriptor A. -/
def descA : Descriptor :=
  { fingerprint := "AAAA", nickname := "n", address := "", or_port := 0,
    dir_port := none, tor_version := "", exit_policy := "",
    average_bandwidth := 0, burst_bandwidth := 0, observed_bandwidth := 0,
    operating_system := "", published := "", uptime := 0, contact := "" }

/-- Scenario descriptor B, at canonical-string distance 3 from A. -/
def descB : Descriptor :=
  { descA with fingerprint := "BBBB", nickname := "nxyz" }

/-- Scenario descriptor C, at canonical-string distance 1 from A. -/
def descC : Descriptor :=
  { descA with fingerprint := "CCCC", nickname := "nx" }

/-- The scenario mapping `{A: dist 0, B: dist 3, C: dist 1}`. -/
def scenarioDescs : List (String × Descriptor) :=
  [("AAAA", descA), ("BBBB", descB), ("CCCC", descC)]

/-- String join over character data. -/
theorem data_foldl_append (l : List String) :
    ∀ s : String, (l.foldl (fun a b => a ++ b) s).data
      = s.data ++ (l.map String.data).flatten := by
  induction l with
  | nil => intro s; simp
  | cons a rest ih =>
    intro s
    simp only [List.foldl_cons, List.map_cons, List.flatten_cons]
    rw [ih (s ++ a)]
    simp

theorem data_join (l : List String) :
    (String.join l).data = (l.map String.data).flatten := by
  have := data_foldl_append l ""
  simpa [String.join] using this

/-! ## Claim theorems -/

/-- **C1.** The ranker's output is the list of (fingerprint, distance) pairs
sorted ascending by distance, and the presenter emits the first K of them in
that order; in particular, for a mapping whose canonical strings give
distances A ↦ 0 (the reference itself), B ↦ 3, C ↦ 1 and K = 2, the emitted
rows are A (distance 0) then C (distance 1), and B is excluded. -/
theorem ranking_sorted_and_top_k :
    (∀ (canon : Descriptor → String) (descs : List (String × Descriptor))
        (r : String),
        List.Pairwise (fun a b : String × Nat => a.2 ≤ b.2)
          (pySorted (build_dists canon descs r)) ∧
        List.Perm (pySorted (build_dists canon descs r))
          (build_dists canon descs r)) ∧
    (∀ (l : List (String × Nat)) (k : Nat),
        displayLoop l 0 (k : Int) = l.take k) ∧
    (distance (Trnnr.to_str descA) (Trnnr.to_str descA) = 0 ∧
     distance (Trnnr.to_str descA) (Trnnr.to_str descB) = 3 ∧
     distance (Trnnr.to_str descA) (Trnnr.to_str descC) = 1 ∧
     (Trnnr.process_descriptors scenarioDescs "AAAA" 2 false).2.map
        (fun row => (row.headD "", row.getD 1 "")) =
       [("distance", "fingerprint"), ("  0", "AAAA"), ("  1", "CCCC")] ∧
     (Trnns.process_descriptors scenarioDescs "AAAA" 2).2 =
       [Trnns.header,
        "  0," ++ Trnns.print_desc descA,
        "  1," ++ Trnns.print_desc descC]) := by
  refine ⟨fun canon descs r => ⟨pySorted_sorted _, pySorted_perm _⟩, ?_, ?_⟩
  · intro l k
    simpa using displayLoop_take l 0 k
  · exact ⟨by decide, by decide, by decide, by decide, by decide⟩

/-- **C2.** For every fetched descriptor mapping and every reference
identifier not present as a key of that mapping, `process_descriptors`
reports failure by returning exit code 1 and performs no ranking: the result
is exit code 1 together with no output rows, in both variants. -/
theorem missing_reference_exits_one
    (descs : List (String × Descriptor)) (relay_fpr : String)
    (num_results : Int) (use_colour : Bool)
    (h : relay_fpr ∉ descs.map Prod.fst) :
    Trnnr.process_descriptors descs relay_fpr num_results use_colour
        = (1, []) ∧
    Trnns.process_descriptors descs relay_fpr num_results = (1, []) := by
  have hl : List.lookup relay_fpr descs = none := by
    rw [List.lookup_eq_none_iff]
    intro p hp
    simp only [bne_iff_ne, ne_eq]
    intro hc
    exact h (hc ▸ List.mem_map_of_mem Prod.fst hp)
  exact ⟨by simp [Trnnr.process_descriptors, hl],
    by simp [Trnns.process_descriptors, hl]⟩

/-- Witness for C2: the fingerprint ZZZZ is not a key of the scenario
mapping, and both variants return exit code 1 with no rows. -/
theorem missing_reference_exits_one_witness :
    ("ZZZZ" ∉ scenarioDescs.map Prod.fst) ∧
    (Trnnr.process_descriptors scenarioDescs "ZZZZ" 20 false = (1, []) ∧
     Trnns.process_descriptors scenarioDescs "ZZZZ" 20 = (1, [])) :=
  ⟨by decide, missing_reference_exits_one scenarioDescs "ZZZZ" 20 false (by decide)⟩

/-- **C3.** For every descriptor mapping (with the well-formedness the
fetcher guarantees: keys are the descriptors' fingerprints, and keys are
unique), the distance table built before sorting contains exactly one
(fingerprint, distance) entry for every descriptor in the fetched mapping,
including the reference itself, with no early termination: it is exactly the
image of the mapping under the distance computation, in iteration order. -/
theorem distance_table_complete
    (canon : Descriptor → String) (descs : List (String × Descriptor))
    (r : String)
    (hkey : ∀ p ∈ descs, p.2.fingerprint = p.1)
    (hnd : List.Nodup (descs.map Prod.fst)) :
    build_dists canon descs r
        = descs.map (fun p => (p.1, distance r (canon p.2))) ∧
    (build_dists canon descs r).length = descs.length := by
  have hfp : List.Nodup (descs.map (fun p => p.2.fingerprint)) := by
    have hmm : descs.map (fun p => p.2.fingerprint) = descs.map Prod.fst :=
      List.map_congr_left hkey
    rw [hmm]; exact hnd
  have heq := build_dists_eq canon descs r hfp
  constructor
  · rw [heq]
    apply List.map_congr_left
    intro p hp
    rw [hkey p hp]
  · rw [heq, List.length_map]

/-- Witness for C3 on the scenario mapping. -/
theorem distance_table_complete_witness :
    (∀ p ∈ scenarioDescs, p.2.fingerprint = p.1) ∧
    List.Nodup (scenarioDescs.map Prod.fst) ∧
    (build_dists Trnnr.to_str scenarioDescs "x"
        = scenarioDescs.map (fun p => (p.1, distance "x" (Trnnr.to_str p.2))) ∧
     (build_dists Trnnr.to_str scenarioDescs "x").length
        = scenarioDescs.length) :=
  ⟨by decide, by decide,
   distance_table_complete Trnnr.to_str scenarioDescs "x" (by decide) (by decide)⟩

/-- **C4.** For every sorted ranking and K = 0, the presenter emits only the
header row and no candidate rows, regardless of how many candidates exist:
the display loop emits nothing, and both variants output exactly the header. -/
theorem top_zero_emits_header_only
    (descs : List (String × Descriptor)) (relay_fpr : String)
    (use_colour : Bool) (ref : Descriptor)
    (h : List.lookup relay_fpr descs = some ref) :
    (∀ l : List (String × Nat), displayLoop l 0 0 = []) ∧
    (Trnnr.process_descriptors descs relay_fpr 0 use_colour).2
        = [Trnnr.header] ∧
    (Trnns.process_descriptors descs relay_fpr 0).2 = [Trnns.header] := by
  have hz : ∀ l : List (String × Nat), displayLoop l 0 0 = [] := by
    intro l
    cases l with
    | nil => rfl
    | cons e rest => rw [displayLoop, if_pos rfl]
  exact ⟨hz, by simp [Trnnr.process_descriptors, h, hz],
    by simp [Trnns.process_descriptors, h, hz]⟩

/-- Witness for C4 on the scenario mapping. -/
theorem top_zero_emits_header_only_witness :
    List.lookup "AAAA" scenarioDescs = some descA ∧
    (displayLoop [("AAAA", 0)] 0 0 = [] ∧
     (Trnnr.process_descriptors scenarioDescs "AAAA" 0 false).2
        = [Trnnr.header] ∧
     (Trnns.process_descriptors scenarioDescs "AAAA" 0).2 = [Trnns.header]) :=
  ⟨by decide,
   ⟨(top_zero_emits_header_only scenarioDescs "AAAA" false descA (by decide)).1 _,
    (top_zero_emits_header_only scenarioDescs "AAAA" false descA (by decide)).2.1,
    (top_zero_emits_header_only scenarioDescs "AAAA" false descA (by decide)).2.2⟩⟩

/-- **C5.** For every sorted ranking of N candidates and every K strictly
greater than N, the presenter emits exactly the N candidates, each exactly
once, none omitted and none duplicated; at the process level, both variants
output exactly one row per descriptor plus the header. -/
theorem top_exceeding_count_emits_all :
    (∀ (l : List (String × Nat)) (n : Int),
        (l.length : Int) < n → displayLoop l 0 n = l) ∧
    (∀ (descs : List (String × Descriptor)) (relay_fpr : String)
        (use_colour : Bool) (ref : Descriptor) (n : Int),
        List.lookup relay_fpr descs = some ref →
        (∀ p ∈ descs, p.2.fingerprint = p.1) →
        List.Nodup (descs.map Prod.fst) →
        (descs.length : Int) < n →
        (Trnnr.process_descriptors descs relay_fpr n use_colour).2.length
            = descs.length + 1 ∧
        (Trnns.process_descriptors descs relay_fpr n).2.length
            = descs.length + 1) := by
  have hall : ∀ (l : List (String × Nat)) (n : Int),
      (l.length : Int) < n → displayLoop l 0 n = l := by
    intro l n h
    exact displayLoop_big l n 0 (by omega)
  refine ⟨hall, ?_⟩
  intro descs relay_fpr use_colour ref n h hkey hnd hlt
  have hlen : ∀ canon : Descriptor → String, ∀ r : String,
      (pySorted (build_dists canon descs r)).length = descs.length := by
    intro canon r
    rw [(pySorted_perm (build_dists canon descs r)).length_eq,
      (distance_table_complete canon descs r hkey hnd).2]
  constructor
  · simp only [Trnnr.process_descriptors, h]
    rw [hall _ n (by rw [hlen]; exact hlt)]
    simp [hlen]
  · simp only [Trnns.process_descriptors, h]
    rw [hall _ n (by rw [hlen]; exact hlt)]
    simp [hlen]

/-- Witness for C5: a one-element ranking with K = 5, and the scenario
mapping (3 descriptors) with K = 9. -/
theorem top_exceeding_count_emits_all_witness :
    ((([("AAAA", 0)] : List (String × Nat)).length : Int) < 5 ∧
     displayLoop [("AAAA", 0)] 0 5 = [("AAAA", 0)]) ∧
    ((scenarioDescs.length : Int) < 9 ∧
     (Trnnr.process_descriptors scenarioDescs "AAAA" 9 false).2.length
        = scenarioDescs.length + 1) :=
  ⟨⟨by decide, top_exceeding_count_emits_all.1 [("AAAA", 0)] 5 (by decide)⟩,
   ⟨by decide,
    (top_exceeding_count_emits_all.2 scenarioDescs "AAAA" false descA 9
      (by decide) (by decide) (by decide) (by decide)).1⟩⟩

/-- **C9.** For every negative result count K and every ranking, the
presenter emits all candidates rather than none: the truncation check
compares the row index for equality with K, which a negative K never
satisfies, so no truncation occurs; at the process level, every ranked
candidate produces one output row. -/
theorem negative_top_emits_all :
    (∀ (l : List (String × Nat)) (n : Int), n < 0 → displayLoop l 0 n = l) ∧
    (∀ (descs : List (String × Descriptor)) (relay_fpr : String)
        (use_colour : Bool) (ref : Descriptor) (n : Int),
        List.lookup relay_fpr descs = some ref → n < 0 →
        (Trnnr.process_descriptors descs relay_fpr n use_colour).2
            = Trnnr.header ::
              (pySorted (build_dists Trnnr.to_str descs (Trnnr.to_str ref))).map
                (Trnnr.result_row descs relay_fpr use_colour) ∧
        (Trnns.process_descriptors descs relay_fpr n).2
            = Trnns.header ::
              (pySorted (build_dists Trnns.to_str descs (Trnns.to_str ref))).map
                (Trnns.result_line descs)) := by
  have hall : ∀ (l : List (String × Nat)) (n : Int), n < 0 →
      displayLoop l 0 n = l := by
    intro l n h
    exact displayLoop_neg l n 0 (by omega)
  refine ⟨hall, ?_⟩
  intro descs relay_fpr use_colour ref n h hneg
  constructor
  · simp only [Trnnr.process_descriptors, h]
    rw [hall _ n hneg]
  · simp only [Trnns.process_descriptors, h]
    rw [hall _ n hneg]

/-- Witness for C9: the scenario mapping with K = -1 emits all three
candidates. -/
theorem negative_top_emits_all_witness :
    ((-1 : Int) < 0 ∧ displayLoop [("AAAA", 0)] 0 (-1) = [("AAAA", 0)]) ∧
    (List.lookup "AAAA" scenarioDescs = some descA ∧
     (Trnnr.process_descriptors scenarioDescs "AAAA" (-1) false).2
        = Trnnr.header ::
          (pySorted (build_dists Trnnr.to_str scenarioDescs
              (Trnnr.to_str descA))).map
            (Trnnr.result_row scenarioDescs "AAAA" false)) :=
  ⟨⟨by decide, negative_top_emits_all.1 [("AAAA", 0)] (-1) (by decide)⟩,
   ⟨by decide,
    (negative_top_emits_all.2 scenarioDescs "AAAA" false descA (-1)
      (by decide) (by decide)).1⟩⟩

/-- The thirteen canonical fields, in the fixed order the spec lists them:
nickname, address, or-port, dir-port (0 when absent), version, exit policy,
average / burst / observed bandwidth, operating system, published timestamp,
uptime, contact; numeric fields rendered in base-10 decimal (`Nat.repr`)
with no padding. -/
def canonical_fields (d : Descriptor) : List String :=
  [d.nickname, d.address, Nat.repr d.or_port,
   Nat.repr (Trnnr.dirport_to_int d.dir_port), d.tor_version, d.exit_policy,
   Nat.repr d.average_bandwidth, Nat.repr d.burst_bandwidth,
   Nat.repr d.observed_bandwidth, d.operating_system, d.published,
   Nat.repr d.uptime, d.contact]

/-- **C6.** For every descriptor D, the canonicalization `to_str(D)` used for
distance computation is the deterministic concatenation, in fixed order and
with no delimiter between fields, of exactly the thirteen fields of
`canonical_fields`; the trnns variant produces the identical string; and the
function is deterministic (equal inputs give equal strings). -/
theorem to_str_fixed_field_concatenation (d : Descriptor) :
    Trnnr.to_str d = String.join (canonical_fields d) ∧
    Trnns.to_str d = Trnnr.to_str d ∧
    ∀ d' : Descriptor, d = d' → Trnnr.to_str d = Trnnr.to_str d' := by
  refine ⟨?_, ?_, fun d' hdd => by rw [hdd]⟩
  · apply String.ext
    simp [Trnnr.to_str, canonical_fields, data_join]
  · cases hdp : d.dir_port <;>
      simp [Trnns.to_str, Trnnr.to_str, Trnnr.dirport_to_int, hdp]

/-- Witness for C6 at the scenario reference descriptor (the inner
determinism hypothesis discharged at d' = descA). -/
theorem to_str_fixed_field_concatenation_witness :
    Trnnr.to_str descA = String.join (canonical_fields descA) ∧
    Trnns.to_str descA = Trnnr.to_str descA ∧
    Trnnr.to_str descA = Trnnr.to_str descA :=
  ⟨(to_str_fixed_field_concatenation descA).1,
   (to_str_fixed_field_concatenation descA).2.1,
   (to_str_fixed_field_concatenation descA).2.2 descA rfl⟩

/-- **C7.** For every descriptor whose dir-port field is absent (None),
canonicalization treats the dir-port as the integer 0 and succeeds (it
produces the same string as for an explicit dir-port of 0, in both
variants); the absence is never a missing-field error. -/
theorem absent_dirport_treated_as_zero (d : Descriptor)
    (h : d.dir_port = none) :
    Trnnr.dirport_to_int d.dir_port = 0 ∧
    Trnnr.to_str d = Trnnr.to_str { d with dir_port := some 0 } ∧
    Trnns.to_str d = Trnns.to_str { d with dir_port := some 0 } := by
  refine ⟨by rw [h]; rfl, ?_, ?_⟩ <;>
    simp [Trnnr.to_str, Trnns.to_str, Trnnr.dirport_to_int, h]

/-- Witness for C7: the scenario reference descriptor has no dir-port. -/
theorem absent_dirport_treated_as_zero_witness :
    descA.dir_port = none ∧
    (Trnnr.dirport_to_int descA.dir_port = 0 ∧
     Trnnr.to_str descA = Trnnr.to_str { descA with dir_port := some 0 } ∧
     Trnns.to_str descA = Trnns.to_str { descA with dir_port := some 0 }) :=
  ⟨rfl, absent_dirport_treated_as_zero descA rfl⟩

/-- **C8.** The edit-distance function used by the ranker is a metric on
strings: distance(s, s) = 0, distance is symmetric, and the triangle
inequality holds; in particular the distance between a descriptor's
canonical string and itself is 0, so the reference relay always ranks with
distance 0. -/
theorem distance_is_metric :
    (∀ s : String, distance s s = 0) ∧
    (∀ a b : String, distance a b = distance b a) ∧
    (∀ a b c : String, distance a c ≤ distance a b + distance b c) ∧
    (∀ d : Descriptor, distance (Trnnr.to_str d) (Trnnr.to_str d) = 0) :=
  ⟨fun s => lev_self s.data,
   fun a b => lev_comm a.data b.data,
   fun a b c => lev_triangle a.data b.data c.data,
   fun d => lev_self (Trnnr.to_str d).data⟩

/-! ## The shape of `format_desc` -/

/-- The twelve comma-separated fields of `desc_to_str`, in order. -/
def display_fields (d : Descriptor) : List String :=
  [d.fingerprint.take 8, d.nickname, d.address, Nat.repr d.or_port,
   Nat.repr (Trnnr.dirport_to_int d.dir_port), d.tor_version,
   d.operating_system, Nat.repr d.average_bandwidth,
   Nat.repr d.burst_bandwidth, Nat.repr d.observed_bandwidth,
   Nat.repr d.uptime, d.contact]

/-- No display field of the descriptor contains a comma character. -/
def commaFreeFields (d : Descriptor) : Prop :=
  ∀ f ∈ display_fields d, ',' ∉ f.data

instance (d : Descriptor) : Decidable (commaFreeFields d) :=
  List.decidableBAll _ _

theorem desc_to_str_data (d : Descriptor) :
    (Trnnr.desc_to_str d).data
      = List.intercalate [','] ((display_fields d).map String.data) := by
  have hcomma : (",").data = [','] := rfl
  simp [Trnnr.desc_to_str, display_fields, List.intercalate,
    List.intersperse, hcomma]

theorem flatten_const_singleton (r : List Char) :
    (r.map (fun _ => [' '])).flatten = List.replicate r.length ' ' := by
  induction r with
  | nil => rfl
  | cons a r ih => simp [ih, List.replicate_succ]

theorem format_pair_plain (s : List Char) :
    ∀ r : List Char,
      ((zipLongest s r).map (Trnnr.format_char false)).flatten
        = s ++ List.replicate (r.length - s.length) ' ' := by
  induction s with
  | nil =>
    intro r
    simp only [zipLongest, List.map_map, List.length_nil, Nat.sub_zero,
      List.nil_append]
    have hfun : (Trnnr.format_char false ∘ fun y : Char => ((none : Option Char), some y))
        = fun _ : Char => [' '] := by
      funext y
      simp [Trnnr.format_char, Trnnr.char_or_space]
    rw [hfun, flatten_const_singleton]
  | cons c s ih =>
    intro r
    cases r with
    | nil =>
      simp [zipLongest, Trnnr.format_char, Trnnr.char_or_space, ih []]
    | cons rc r =>
      simp [zipLongest, Trnnr.format_char, Trnnr.char_or_space, ih r,
        Nat.succ_sub_succ]

theorem flatten_comma_eq_intercalate (ps : List (List Char)) :
    (ps.map (fun p => p ++ [','])).flatten
      = List.intercalate [','] (ps ++ [[]]) := by
  induction ps with
  | nil => rfl
  | cons p rest ih =>
    obtain ⟨q, t, hqt⟩ : ∃ q t, rest ++ [[]] = q :: t := by
      cases rest with
      | nil => exact ⟨[], [], rfl⟩
      | cons a b => exact ⟨a, b ++ [[]], List.cons_append a b [[]]⟩
    simp only [List.intercalate, List.cons_append, hqt,
      List.intersperse_cons_cons, List.flatten_cons, List.map_cons] at ih ⊢
    rw [ih]
    simp

/-- **C10 (amended).** For every pair of descriptors whose display fields
contain no comma, `format_desc` with colour off returns a list of 13
strings: the 12 comma-separated fields of the candidate's display string,
each right-padded with spaces to the length of the corresponding reference
field whenever the candidate's field is shorter, followed by one trailing
empty string; each candidate character is preserved unchanged. -/
theorem format_desc_pads_fields (cand ref : Descriptor)
    (hc : commaFreeFields cand) (hr : commaFreeFields ref) :
    Trnnr.format_desc cand ref false
        = ((display_fields cand).zip (display_fields ref)).map
            (fun p => p.1 ++ String.mk (List.replicate (p.2.length - p.1.length) ' '))
          ++ [""] ∧
    (Trnnr.format_desc cand ref false).length = 13 := by
  have hsplit : ∀ d : Descriptor, commaFreeFields d →
      (Trnnr.desc_to_str d).data.splitOn ','
        = (display_fields d).map String.data := by
    intro d hd
    rw [desc_to_str_data]
    apply List.splitOn_intercalate
    · intro l hl
      rcases List.mem_map.mp hl with ⟨f, hf, rfl⟩
      exact hd f hf
    · simp [display_fields]
  have key : Trnnr.format_desc cand ref false
      = ((display_fields cand).zip (display_fields ref)).map
          (fun p => p.1 ++ String.mk (List.replicate (p.2.length - p.1.length) ' '))
        ++ [""] := by
    simp only [Trnnr.format_desc, hsplit cand hc, hsplit ref hr]
    rw [List.zip_map, List.map_map]
    have hfun : ((fun p : List Char × List Char =>
          ((zipLongest p.1 p.2).map (Trnnr.format_char false)).flatten ++ [','])
          ∘ Prod.map String.data String.data)
        = (fun q : List Char => q ++ [','])
          ∘ (fun p : String × String =>
              p.1.data ++ List.replicate (p.2.data.length - p.1.data.length) ' ') := by
      funext p
      simp [format_pair_plain]
    rw [hfun, ← List.map_map, flatten_comma_eq_intercalate,
      List.splitOn_intercalate]
    · simp only [List.map_append, List.map_map, List.map_cons, List.map_nil]
      rfl
    · intro l hl
      rcases List.mem_append.mp hl with hl | hl
      · rcases List.mem_map.mp hl with ⟨p, hp, rfl⟩
        intro hmem
        rcases List.mem_append.mp hmem with hmem | hmem
        · have hp1 : p.1 ∈ display_fields cand := (List.of_mem_zip hp).1
          exact hc p.1 hp1 hmem
        · have := List.eq_of_mem_replicate hmem
          simp at this
      · simp only [List.mem_singleton] at hl
        subst hl
        simp
    · simp
  refine ⟨key, ?_⟩
  rw [key]
  simp [display_fields]

/-- A descriptor whose contact field contains a comma. -/
def commaContactDesc : Descriptor :=
  { descA with contact := "a,b" }

/-- **C10 counterexample.** For a descriptor whose contact field contains a
comma, `format_desc` with colour off returns 14 strings, not 13 as the claim
states: the extra comma produces an extra split piece. -/
theorem format_desc_comma_field_not_thirteen :
    (Trnnr.format_desc commaContactDesc commaContactDesc false).length = 14 ∧
    (Trnnr.format_desc commaContactDesc commaContactDesc false).length ≠ 13 :=
  ⟨by decide, by decide⟩

/-- Witness for the amended C10 on two comma-free scenario descriptors. -/
theorem format_desc_pads_fields_witness :
    commaFreeFields descA ∧ commaFreeFields descC ∧
    (Trnnr.format_desc descA descC false
        = ((display_fields descA).zip (display_fields descC)).map
            (fun p => p.1 ++ String.mk (List.replicate (p.2.length - p.1.length) ' '))
          ++ [""] ∧
     (Trnnr.format_desc descA descC false).length = 13) :=
  ⟨by decide, by decide, format_desc_pads_fields descA descC (by decide) (by decide)⟩
